import Mathlib

/-!
Verification of the tile-content resolver and archive assembly/extraction
pipeline of `pmtiles/convert.go` (go-pmtiles).

The Go code is shallowly embedded: byte slices become `List Nat`, the
`map[string]offsetLen` keyed by an FNV-128a digest becomes an association
list keyed by the content bytes themselves (the digest is a pure function
of the content, and no property proved here depends on collision
behaviour), the gzip compressor becomes an abstract parameter
`cf : List Nat → List Nat`, and machine-integer overflow is made explicit
with `% 2 ^ 32` / `% 2 ^ 64` exactly where the Go code performs `uint32` /
`uint64` arithmetic.  A `panic` is modelled as `none`.
-/

/-- Embedding of `offsetLen` (convert.go:30-33): `Offset uint64`, `Length uint32`. -/
structure offsetLen where
  Offset : Nat
  Length : Nat
deriving Repr, DecidableEq

/-- Embedding of `EntryV3` (field order as in the Go literals
`EntryV3{tileID, offset, length, runLength}`): `TileID uint64`,
`Offset uint64`, `Length uint32`, `RunLength uint32`. -/
structure EntryV3 where
  TileID : Nat
  Offset : Nat
  Length : Nat
  RunLength : Nat
deriving Repr, DecidableEq

/-- Embedding of `resolver` (convert.go:35-45).  The `compressor`,
`compressTmp` and `hashfunc` scratch fields are pure helpers in the Go
code (reset before every use) and are represented by the `cf` parameter
of `AddTileIsNew` and by keying `OffsetMap` directly on the content. -/
structure resolver where
  deduplicate : Bool
  compress : Bool
  Entries : List EntryV3
  Offset : Nat
  OffsetMap : List (List Nat × offsetLen)
  AddressedTiles : Nat
deriving Repr, DecidableEq

/-- Embedding of `resolver.NumContents` (convert.go:47-52). -/
def resolver.NumContents (r : resolver) : Nat :=
  if r.deduplicate then r.OffsetMap.length else r.AddressedTiles

/-- Embedding of the compression decision inside `AddTileIsNew`
(convert.go:82-92): keep `data` as-is when compression is off or the data
already starts with the gzip magic bytes `31 139`; otherwise run the
(abstract) gzip compressor `cf`. -/
def newData (compress : Bool) (cf : List Nat → List Nat) (data : List Nat) : List Nat :=
  if compress = false ∨ (2 ≤ data.length ∧ data.getD 0 0 = 31 ∧ data.getD 1 0 = 139)
  then data
  else cf data

/-- Embedding of `resolver.AddTileIsNew` (convert.go:55-100).  `none`
models the `panic("Maximum 32-bit run length exceeded")`; note that the
Go guard compares the already-wrapped `uint32` sum
`lastEntry.RunLength+runLength` against `math.MaxUint32`, which is
embedded faithfully as `2 ^ 32 - 1 < (lastEntry.RunLength + runLength) % 2 ^ 32`.
The run-length-merge adjacency test `tileID == lastEntry.TileID+uint64(lastEntry.RunLength)`
is `uint64` arithmetic, hence the `% 2 ^ 64`. -/
def AddTileIsNew (cf : List Nat → List Nat) (r : resolver) (tileID : Nat)
    (data : List Nat) (runLength : Nat) : Option (resolver × Bool × List Nat) :=
  match (if r.deduplicate then r.OffsetMap.lookup data else none) with
  | some fnd =>
    match r.Entries.getLast? with
    | some lastEntry =>
      if tileID = (lastEntry.TileID + lastEntry.RunLength) % 2 ^ 64 ∧
          lastEntry.Offset = fnd.Offset then
        if 2 ^ 32 - 1 < (lastEntry.RunLength + runLength) % 2 ^ 32 then
          none
        else
          some ({ r with
              AddressedTiles := r.AddressedTiles + 1,
              Entries := r.Entries.dropLast ++
                [{ lastEntry with RunLength := (lastEntry.RunLength + runLength) % 2 ^ 32 }] },
            false, [])
      else
        some ({ r with
            AddressedTiles := r.AddressedTiles + 1,
            Entries := r.Entries ++ [EntryV3.mk tileID fnd.Offset fnd.Length runLength] },
          false, [])
    | none =>
      some ({ r with
          AddressedTiles := r.AddressedTiles + 1,
          Entries := r.Entries ++ [EntryV3.mk tileID fnd.Offset fnd.Length runLength] },
        false, [])
  | none =>
    some ({ r with
        AddressedTiles := r.AddressedTiles + 1,
        OffsetMap := if r.deduplicate
          then (data, offsetLen.mk r.Offset (newData r.compress cf data).length) :: r.OffsetMap
          else r.OffsetMap,
        Entries := r.Entries ++
          [EntryV3.mk tileID r.Offset (newData r.compress cf data).length runLength],
        Offset := r.Offset + (newData r.compress cf data).length },
      true, newData r.compress cf data)

/-- Embedding of `newResolver` (convert.go:102-107). -/
def newResolver (deduplicate compress : Bool) : resolver :=
  resolver.mk deduplicate compress [] 0 [] 0

/-- Replay a list of `(tileID, data, runLength)` calls through the
resolver, propagating a panic (`none`). -/
def runCalls (cf : List Nat → List Nat) : resolver → List (Nat × List Nat × Nat) → Option resolver
  | r, [] => some r
  | r, c :: rest =>
    match AddTileIsNew cf r c.1 c.2.1 c.2.2 with
    | none => none
    | some res => runCalls cf res.1 rest

/-- Branch analysis of `AddTileIsNew`: it never panics (the overflow guard
compares a value reduced mod `2 ^ 32` against `2 ^ 32 - 1`, so it can
never fire), it always increments `AddressedTiles` by exactly one, and the
entry list either gains one entry at the end or has its last entry's
`RunLength` replaced by the wrapped sum. -/
theorem addTile_shape (cf : List Nat → List Nat) (r : resolver) (t : Nat)
    (d : List Nat) (rl : Nat) :
    ∃ r' b nd, AddTileIsNew cf r t d rl = some (r', b, nd) ∧
      r'.AddressedTiles = r.AddressedTiles + 1 ∧
      r'.deduplicate = r.deduplicate ∧ r'.compress = r.compress ∧
      ((∃ off len, r'.Entries = r.Entries ++ [EntryV3.mk t off len rl] ∧
          (r'.OffsetMap = r.OffsetMap ∨
            (r'.OffsetMap = (d, offsetLen.mk r.Offset len) :: r.OffsetMap ∧ off = r.Offset))) ∨
        (∃ es la, r.Entries = es ++ [la] ∧
          r'.Entries = es ++ [{ la with RunLength := (la.RunLength + rl) % 2 ^ 32 }] ∧
          r'.OffsetMap = r.OffsetMap)) := by
  unfold AddTileIsNew
  cases hfd : (if r.deduplicate then r.OffsetMap.lookup d else none) with
  | none =>
    refine ⟨_, _, _, rfl, rfl, rfl, rfl, Or.inl ⟨r.Offset, (newData r.compress cf d).length, rfl, ?_⟩⟩
    by_cases hdd : r.deduplicate
    · exact Or.inr ⟨by simp [hdd], rfl⟩
    · exact Or.inl (by simp [hdd])
  | some fnd =>
    rcases List.eq_nil_or_concat r.Entries with hE | ⟨es, la, hE⟩
    · rw [hE]
      simp only [List.getLast?_nil]
      exact ⟨_, _, _, rfl, rfl, rfl, rfl, Or.inl ⟨fnd.Offset, fnd.Length, rfl, Or.inl rfl⟩⟩
    · rw [hE]
      simp only [List.concat_eq_append, List.getLast?_concat]
      by_cases hc : t = (la.TileID + la.RunLength) % 2 ^ 64 ∧ la.Offset = fnd.Offset
      · rw [if_pos hc, if_neg (by
          have := Nat.mod_lt (la.RunLength + rl) (show 0 < 2 ^ 32 by norm_num)
          omega)]
        exact ⟨_, _, _, rfl, rfl, rfl, rfl,
          Or.inr ⟨es, la, by simp [hE], by simp [List.dropLast_concat], rfl⟩⟩
      · rw [if_neg hc]
        exact ⟨_, _, _, rfl, rfl, rfl, rfl, Or.inl ⟨fnd.Offset, fnd.Length, rfl, Or.inl rfl⟩⟩

/-- Ordering relation between directory entries: the earlier entry's range
`[TileID, TileID+RunLength)` ends at or before the later entry's start,
and its start is strictly below the later start. -/
def entryLe (a b : EntryV3) : Prop :=
  a.TileID + a.RunLength ≤ b.TileID ∧ a.TileID < b.TileID

/-- Resolver ordering invariant relative to an upper bound `lo` (the least
tile id the next call is allowed to use): entries are pairwise ordered
with disjoint ranges, and every stored range lies entirely below `lo`. -/
def entriesInv (r : resolver) (lo : Nat) : Prop :=
  List.Pairwise entryLe r.Entries ∧
    ∀ e ∈ r.Entries, e.TileID + e.RunLength ≤ lo ∧ e.TileID < lo

/-- Well-ordered call sequences: each call's `tileID` is at least the
previous call's `tileID + runLength` (so the runs being fed are
themselves strictly increasing and pairwise disjoint) and every
`runLength` is at least 1. -/
def callsOrdered : Nat → List (Nat × List Nat × Nat) → Bool
  | _, [] => true
  | lo, c :: rest => decide (lo ≤ c.1) && decide (1 ≤ c.2.2) && callsOrdered (c.1 + c.2.2) rest

/-- One `AddTileIsNew` call on a well-ordered resolver with a fresh enough
tile id preserves the ordering invariant, the new bound being the end of
the run just fed. -/
theorem addTile_entriesInv {cf : List Nat → List Nat} {r : resolver} {t : Nat}
    {d : List Nat} {rl : Nat} {lo : Nat} {r' : resolver} {b : Bool} {nd : List Nat}
    (hInv : entriesInv r lo) (hlo : lo ≤ t) (hrl : 1 ≤ rl)
    (h : AddTileIsNew cf r t d rl = some (r', b, nd)) : entriesInv r' (t + rl) := by
  obtain ⟨r'', b', nd', heq, _, _, _, hshape⟩ := addTile_shape cf r t d rl
  rw [heq] at h
  obtain ⟨rfl, rfl, rfl⟩ : r'' = r' ∧ b' = b ∧ nd' = nd := by
    simpa using h
  obtain ⟨hpw, hbd⟩ := hInv
  rcases hshape with ⟨off, len, hent, _⟩ | ⟨es, la, hE, hent, _⟩
  · constructor
    · rw [hent, List.pairwise_append]
      refine ⟨hpw, List.pairwise_singleton _ _, ?_⟩
      intro a ha e he
      rcases List.mem_singleton.mp he with rfl
      obtain ⟨h1, h2⟩ := hbd a ha
      exact ⟨by simp; omega, by simp; omega⟩
    · intro e he
      rw [hent] at he
      rcases List.mem_append.mp he with he | he
      · obtain ⟨h1, h2⟩ := hbd e he
        omega
      · rcases List.mem_singleton.mp he with rfl
        simp
        omega
  · have hmle : (la.RunLength + rl) % 2 ^ 32 ≤ la.RunLength + rl := Nat.mod_le _ _
    have hla : la.TileID + la.RunLength ≤ lo ∧ la.TileID < lo :=
      hbd la (by rw [hE]; exact List.mem_append_right _ (List.mem_singleton.mpr rfl))
    constructor
    · rw [hent, List.pairwise_append]
      rw [hE, List.pairwise_append] at hpw
      obtain ⟨hpw1, _, hpw3⟩ := hpw
      refine ⟨hpw1, List.pairwise_singleton _ _, ?_⟩
      intro a ha e he
      rcases List.mem_singleton.mp he with rfl
      have := hpw3 a ha la (List.mem_singleton.mpr rfl)
      exact ⟨this.1, this.2⟩
    · intro e he
      rw [hent] at he
      rcases List.mem_append.mp he with he | he
      · have := hbd e (by rw [hE]; exact List.mem_append_left _ he)
        omega
      · rcases List.mem_singleton.mp he with rfl
        simp
        omega

/-- Replaying a well-ordered call sequence preserves the ordering
invariant (for some final bound). -/
theorem runCalls_entriesInv {cf : List Nat → List Nat} :
    ∀ (calls : List (Nat × List Nat × Nat)) (r : resolver) (lo : Nat) (r' : resolver),
      entriesInv r lo → callsOrdered lo calls = true →
      runCalls cf r calls = some r' → ∃ lo', entriesInv r' lo' := by
  intro calls
  induction calls with
  | nil =>
    intro r lo r' hInv _ hrun
    obtain rfl : r = r' := by simpa [runCalls] using hrun
    exact ⟨lo, hInv⟩
  | cons c rest ih =>
    intro r lo r' hInv hord hrun
    simp only [callsOrdered, Bool.and_eq_true, decide_eq_true_eq] at hord
    obtain ⟨⟨hlo, hrl⟩, hord'⟩ := hord
    rw [runCalls] at hrun
    cases hadd : AddTileIsNew cf r c.1 c.2.1 c.2.2 with
    | none => rw [hadd] at hrun; exact absurd hrun (by simp)
    | some res =>
      rw [hadd] at hrun
      exact ih res.1 (c.1 + c.2.2) r'
        (addTile_entriesInv hInv hlo hrl (by rw [hadd])) hord' hrun

/-- C1 (counterexample).  The claim as stated is false: the calls
`(tileID 0, runLength 5)` then `(tileID 1, runLength 1)` have strictly
increasing, unique tileIDs, yet the resulting entries
`[{0,0,1,5}, {1,1,1,1}]` have overlapping ranges `[0,5)` and `[1,2)`. -/
theorem addTile_increasing_ids_overlap_cex :
    (0 : Nat) < 1 ∧
    runCalls (fun x => x) (newResolver false false) [(0, [1], 5), (1, [2], 1)] =
      some (resolver.mk false false
        [EntryV3.mk 0 0 1 5, EntryV3.mk 1 1 1 1] 2 [] 2) ∧
    ¬ List.Pairwise
        (fun a b : EntryV3 =>
          a.TileID + a.RunLength ≤ b.TileID ∨ b.TileID + b.RunLength ≤ a.TileID)
        [EntryV3.mk 0 0 1 5, EntryV3.mk 1 1 1 1] := by
  refine ⟨by decide, by decide, by decide⟩

/-- C1 (amended).  For every sequence of calls to `AddTileIsNew` in which
each call's `tileID` is at least the previous call's `tileID + runLength`
and every `runLength` is at least 1 (so the runs being fed are strictly
increasing and pairwise disjoint — the intended reading of feeding tiles
in strictly increasing order), the resulting `Entries` list is sorted in
strictly ascending `TileID` order and the ranges `[TileID, TileID+RunLength)`
of distinct entries never overlap. -/
theorem addTile_ordered_runs_sorted_disjoint (cf : List Nat → List Nat)
    (dedup compress : Bool) (calls : List (Nat × List Nat × Nat)) (r' : resolver)
    (hord : callsOrdered 0 calls = true)
    (hrun : runCalls cf (newResolver dedup compress) calls = some r') :
    List.Pairwise (fun a b : EntryV3 => a.TileID < b.TileID) r'.Entries ∧
    List.Pairwise
      (fun a b : EntryV3 =>
        a.TileID + a.RunLength ≤ b.TileID ∨ b.TileID + b.RunLength ≤ a.TileID)
      r'.Entries := by
  have hInv0 : entriesInv (newResolver dedup compress) 0 := by
    constructor
    · exact List.Pairwise.nil
    · intro e he
      exact absurd he (by simp [newResolver])
  obtain ⟨lo', hpw, _⟩ := runCalls_entriesInv calls _ 0 r' hInv0 hord hrun
  exact ⟨hpw.imp (fun h => h.2), hpw.imp (fun h => Or.inl h.1)⟩

/-- C1 (witness).  Concrete instance of the amended theorem: two runs
`(0, runLength 1)` and `(2, runLength 1)` with distinct contents, dedup
off, yield the sorted, disjoint entries `[{0,0,1,1}, {2,1,1,1}]`. -/
theorem addTile_ordered_runs_sorted_disjoint_w :
    List.Pairwise (fun a b : EntryV3 => a.TileID < b.TileID)
      [EntryV3.mk 0 0 1 1, EntryV3.mk 2 1 1 1] ∧
    List.Pairwise
      (fun a b : EntryV3 =>
        a.TileID + a.RunLength ≤ b.TileID ∨ b.TileID + b.RunLength ≤ a.TileID)
      [EntryV3.mk 0 0 1 1, EntryV3.mk 2 1 1 1] := by
  exact addTile_ordered_runs_sorted_disjoint (fun x => x) false false
    [(0, [1], 1), (2, [2], 1)]
    (resolver.mk false false [EntryV3.mk 0 0 1 1, EntryV3.mk 2 1 1 1] 2 [] 2)
    (by decide) (by decide)

/-- C2 (code bug).  The overflow guard in the run-length-merge branch
compares the already-wrapped `uint32` sum `lastEntry.RunLength+runLength`
against `math.MaxUint32`, so it can never fire: `AddTileIsNew` never
panics (first conjunct).  At the failing input — an entry with
`RunLength = 2^32-1` merged with one more tile — the merged run length
silently wraps to `0` instead of triggering the fatal path (second
conjunct: the final entry is `{TileID 0, Offset 0, Length 1, RunLength 0}`). -/
theorem runLength_overflow_wraps :
    (∀ (cf : List Nat → List Nat) (r : resolver) (t : Nat) (d : List Nat) (rl : Nat),
      (AddTileIsNew cf r t d rl).isSome = true) ∧
    runCalls (fun x => x) (newResolver true false)
        [(0, [1], 2 ^ 32 - 1), (2 ^ 32 - 1, [1], 1)] =
      some (resolver.mk true false [EntryV3.mk 0 0 1 0] 1 [([1], offsetLen.mk 0 1)] 2) := by
  constructor
  · intro cf r t d rl
    obtain ⟨r', b, nd, heq, _⟩ := addTile_shape cf r t d rl
    rw [heq]
    rfl
  · decide

/-- C3 (counterexample).  A call with `runLength = 2` increments the
addressed-tile counter by 1, not by 2: starting from a fresh resolver the
counter ends at 1, not `0 + 2`. -/
theorem addressedTiles_runLength_cex :
    AddTileIsNew (fun x => x) (newResolver false false) 0 [1] 2 =
      some (resolver.mk false false [EntryV3.mk 0 0 1 2] 1 [] 1, true, [1]) ∧
    (1 : Nat) ≠ 0 + 2 := by
  exact ⟨by decide, by decide⟩

/-- C3 (amended).  Every call to `AddTileIsNew` increments the resolver's
`AddressedTiles` counter by exactly 1, regardless of `runLength`
(the Go code runs `r.AddressedTiles++`). -/
theorem addressedTiles_increment_one (cf : List Nat → List Nat) (r : resolver)
    (t : Nat) (d : List Nat) (rl : Nat) :
    Option.map (fun res => res.1.AddressedTiles) (AddTileIsNew cf r t d rl) =
      some (r.AddressedTiles + 1) := by
  obtain ⟨r', b, nd, heq, hat, _⟩ := addTile_shape cf r t d rl
  rw [heq]
  simp [hat]

/-- Every value stored in `OffsetMap` has a corresponding entry (same
`Offset` and `Length`) in `Entries`. -/
def mapEntriesAgree (r : resolver) : Prop :=
  ∀ kv ∈ r.OffsetMap, ∃ e ∈ r.Entries, e.Offset = kv.2.Offset ∧ e.Length = kv.2.Length

/-- One `AddTileIsNew` call preserves the map/entries correspondence. -/
theorem addTile_mapAgree {cf : List Nat → List Nat} {r : resolver} {t : Nat}
    {d : List Nat} {rl : Nat} {r' : resolver} {b : Bool} {nd : List Nat}
    (hAg : mapEntriesAgree r) (h : AddTileIsNew cf r t d rl = some (r', b, nd)) :
    mapEntriesAgree r' := by
  obtain ⟨r'', b', nd', heq, _, _, _, hshape⟩ := addTile_shape cf r t d rl
  rw [heq] at h
  obtain ⟨rfl, rfl, rfl⟩ : r'' = r' ∧ b' = b ∧ nd' = nd := by simpa using h
  intro kv hkv
  rcases hshape with ⟨off, len, hent, hmap⟩ | ⟨es, la, hE, hent, hmap⟩
  · rcases hmap with hmap | ⟨hmap, hoff⟩
    · rw [hmap] at hkv
      obtain ⟨e, he, hprop⟩ := hAg kv hkv
      exact ⟨e, by rw [hent]; exact List.mem_append_left _ he, hprop⟩
    · rw [hmap] at hkv
      rcases List.mem_cons.mp hkv with rfl | hkv
      · exact ⟨EntryV3.mk t off len rl,
          by rw [hent]; exact List.mem_append_right _ (by simp), by simp [hoff], by simp⟩
      · obtain ⟨e, he, hprop⟩ := hAg kv hkv
        exact ⟨e, by rw [hent]; exact List.mem_append_left _ he, hprop⟩
  · rw [hmap] at hkv
    obtain ⟨e, he, hprop⟩ := hAg kv hkv
    rw [hE] at he
    rcases List.mem_append.mp he with he | he
    · exact ⟨e, by rw [hent]; exact List.mem_append_left _ he, hprop⟩
    · have hela : e = la := List.mem_singleton.mp he
      subst hela
      exact ⟨{ e with RunLength := (e.RunLength + rl) % 2 ^ 32 },
        by rw [hent]; exact List.mem_append_right _ (by simp), hprop.1, hprop.2⟩

/-- Replaying any call sequence preserves the map/entries correspondence. -/
theorem runCalls_mapAgree {cf : List Nat → List Nat} :
    ∀ (calls : List (Nat × List Nat × Nat)) (r r' : resolver),
      mapEntriesAgree r → runCalls cf r calls = some r' → mapEntriesAgree r' := by
  intro calls
  induction calls with
  | nil =>
    intro r r' hAg hrun
    obtain rfl : r = r' := by simpa [runCalls] using hrun
    exact hAg
  | cons c rest ih =>
    intro r r' hAg hrun
    rw [runCalls] at hrun
    cases hadd : AddTileIsNew cf r c.1 c.2.1 c.2.2 with
    | none => rw [hadd] at hrun; exact absurd hrun (by simp)
    | some res =>
      rw [hadd] at hrun
      exact ih res.1 r' (addTile_mapAgree hAg (by rw [hadd])) hrun

/-- C9.  In every reachable resolver state, each digest present in
`OffsetMap` has a corresponding previously-appended entry in `Entries`
(same `Offset` and `Length`); hence whenever a dedup lookup hits, the
entry list is non-empty and reading its last element is in bounds. -/
theorem offsetMap_entries_correspondence (cf : List Nat → List Nat)
    (dedup compress : Bool) (calls : List (Nat × List Nat × Nat)) (r' : resolver)
    (hrun : runCalls cf (newResolver dedup compress) calls = some r') :
    (∀ kv ∈ r'.OffsetMap, ∃ e ∈ r'.Entries,
      e.Offset = kv.2.Offset ∧ e.Length = kv.2.Length) ∧
    (r'.OffsetMap ≠ [] → r'.Entries ≠ []) := by
  have hAg : mapEntriesAgree r' := by
    refine runCalls_mapAgree calls (newResolver dedup compress) r' ?_ hrun
    intro kv hkv
    exact absurd hkv (by simp [newResolver])
  refine ⟨hAg, ?_⟩
  intro hmap
  obtain ⟨kv, hkv⟩ := List.exists_mem_of_ne_nil _ hmap
  obtain ⟨e, he, _⟩ := hAg kv hkv
  exact List.ne_nil_of_mem he

/-- C9 (witness).  Concrete reachable state after one deduplicated call:
the single map value `{Offset 0, Length 1}` corresponds to the single
entry, and the non-empty map forces non-empty entries. -/
theorem offsetMap_entries_correspondence_w :
    (∀ kv ∈ (resolver.mk true false [EntryV3.mk 0 0 1 1] 1
        [([1], offsetLen.mk 0 1)] 1).OffsetMap,
      ∃ e ∈ (resolver.mk true false [EntryV3.mk 0 0 1 1] 1
        [([1], offsetLen.mk 0 1)] 1).Entries,
        e.Offset = kv.2.Offset ∧ e.Length = kv.2.Length) ∧
    ((resolver.mk true false [EntryV3.mk 0 0 1 1] 1
        [([1], offsetLen.mk 0 1)] 1).OffsetMap ≠ [] →
      (resolver.mk true false [EntryV3.mk 0 0 1 1] 1
        [([1], offsetLen.mk 0 1)] 1).Entries ≠ []) :=
  offsetMap_entries_correspondence (fun x => x) true false [(0, [1], 1)] _ (by decide)

/-- N calls at consecutive tile ids `tid, tid+1, ...`, each with the same
content `data` and `runLength` 1. -/
def consecCalls (tid : Nat) (data : List Nat) : Nat → List (Nat × List Nat × Nat)
  | 0 => []
  | n + 1 => (tid, data, 1) :: consecCalls (tid + 1) data n

/-- Auxiliary induction for the RLE merge law: once the resolver holds a
single entry `{id, 0, L, k}` whose content is recorded in the map at
offset 0, each further consecutive identical tile merges into that entry. -/
theorem rle_merge_aux (cf : List Nat → List Nat) (c : Bool) (data : List Nat) (L : Nat) :
    ∀ (n id k : Nat), 1 ≤ k → k + n < 2 ^ 32 → id + k + n ≤ 2 ^ 64 →
      runCalls cf
        (resolver.mk true c [EntryV3.mk id 0 L k] L [(data, offsetLen.mk 0 L)] k)
        (consecCalls (id + k) data n) =
      some (resolver.mk true c [EntryV3.mk id 0 L (k + n)] L
        [(data, offsetLen.mk 0 L)] (k + n)) := by
  intro n
  induction n with
  | zero =>
    intro id k hk _ _
    simp [consecCalls, runCalls]
  | succ m ih =>
    intro id k hk hlt hle
    rw [consecCalls, runCalls]
    have h64 : (id + k) % 18446744073709551616 = id + k := by omega
    have h32 : (k + 1) % 4294967296 = k + 1 := by omega
    have hguard : ¬ (4294967295 < k + 1) := by omega
    have hstep : AddTileIsNew cf
        (resolver.mk true c [EntryV3.mk id 0 L k] L [(data, offsetLen.mk 0 L)] k)
        (id + k) data 1 =
      some (resolver.mk true c [EntryV3.mk id 0 L (k + 1)] L
        [(data, offsetLen.mk 0 L)] (k + 1), false, []) := by
      unfold AddTileIsNew
      simp [List.lookup, h64, h32, hguard]
    rw [hstep]
    have h2 : k + (m + 1) = k + 1 + m := by omega
    rw [h2]
    exact ih id (k + 1) (by omega) (by omega) (by omega)

/-- C4.  RLE merge law: feeding `N ≥ 1` consecutive tile ids with
identical content, `runLength` 1 each and dedup on collapses them into a
single entry `{TileID id, Offset 0, Length |stored|, RunLength N}`, with
`NumContents() = 1` and `N` addressed tiles. -/
theorem rle_merge_law (cf : List Nat → List Nat) (c : Bool) (data : List Nat)
    (id N : Nat) (h1 : 1 ≤ N) (h2 : N < 2 ^ 32) (h3 : id + N ≤ 2 ^ 64) :
    runCalls cf (newResolver true c) (consecCalls id data N) =
      some (resolver.mk true c
        [EntryV3.mk id 0 (newData c cf data).length N]
        (newData c cf data).length
        [(data, offsetLen.mk 0 (newData c cf data).length)] N) ∧
    (resolver.mk true c
        [EntryV3.mk id 0 (newData c cf data).length N]
        (newData c cf data).length
        [(data, offsetLen.mk 0 (newData c cf data).length)] N).NumContents = 1 ∧
    (resolver.mk true c
        [EntryV3.mk id 0 (newData c cf data).length N]
        (newData c cf data).length
        [(data, offsetLen.mk 0 (newData c cf data).length)] N).AddressedTiles = N := by
  refine ⟨?_, rfl, rfl⟩
  obtain ⟨m, rfl⟩ : ∃ m, N = m + 1 := ⟨N - 1, by omega⟩
  rw [consecCalls, runCalls]
  have hstep : AddTileIsNew cf (newResolver true c) id data 1 =
      some (resolver.mk true c
        [EntryV3.mk id 0 (newData c cf data).length 1]
        (newData c cf data).length
        [(data, offsetLen.mk 0 (newData c cf data).length)] 1, true,
        newData c cf data) := by
    unfold AddTileIsNew
    simp [newResolver, List.lookup]
  rw [hstep]
  have h2 : m + 1 = 1 + m := by omega
  rw [h2]
  exact rle_merge_aux cf c data (newData c cf data).length m id 1
    (by omega) (by omega) (by omega)

/-- C4 (witness).  Concrete scenario: ids 5, 6, 7 each with content
"AAAA" (bytes 65 65 65 65), dedup and compression on, the abstract
compressor being the identity: one entry `{TileID 5, Offset 0, Length 4,
RunLength 3}`, one distinct content, three addressed tiles. -/
theorem rle_merge_law_w :
    runCalls (fun x => x) (newResolver true true) (consecCalls 5 [65, 65, 65, 65] 3) =
      some (resolver.mk true true [EntryV3.mk 5 0 4 3] 4
        [([65, 65, 65, 65], offsetLen.mk 0 4)] 3) ∧
    (resolver.mk true true [EntryV3.mk 5 0 4 3] 4
        [([65, 65, 65, 65], offsetLen.mk 0 4)] 3).NumContents = 1 ∧
    (resolver.mk true true [EntryV3.mk 5 0 4 3] 4
        [([65, 65, 65, 65], offsetLen.mk 0 4)] 3).AddressedTiles = 3 :=
  rle_merge_law (fun x => x) true [65, 65, 65, 65] 5 3
    (by decide) (by decide) (by decide)

/-- C5.  Dedup idempotence: with dedup on, feeding identical content at
two ids that are not run-adjacent stores the bytes once (the second call
returns `isNew = false` with no new bytes), produces two entries with the
same `Offset`/`Length`, and `NumContents()` reports 1 (the map's size).
When dedup is disabled, `NumContents()` equals the addressed-tile
counter instead of the mapping's size. -/
theorem dedup_idempotence :
    (∀ (cf : List Nat → List Nat) (c : Bool) (d : List Nat) (id1 id2 rl1 rl2 : Nat),
      id2 ≠ (id1 + rl1) % 2 ^ 64 →
      AddTileIsNew cf (newResolver true c) id1 d rl1 =
        some (resolver.mk true c
          [EntryV3.mk id1 0 (newData c cf d).length rl1]
          (newData c cf d).length
          [(d, offsetLen.mk 0 (newData c cf d).length)] 1,
          true, newData c cf d) ∧
      AddTileIsNew cf
        (resolver.mk true c
          [EntryV3.mk id1 0 (newData c cf d).length rl1]
          (newData c cf d).length
          [(d, offsetLen.mk 0 (newData c cf d).length)] 1)
        id2 d rl2 =
        some (resolver.mk true c
          [EntryV3.mk id1 0 (newData c cf d).length rl1,
            EntryV3.mk id2 0 (newData c cf d).length rl2]
          (newData c cf d).length
          [(d, offsetLen.mk 0 (newData c cf d).length)] 2,
          false, []) ∧
      (resolver.mk true c
          [EntryV3.mk id1 0 (newData c cf d).length rl1,
            EntryV3.mk id2 0 (newData c cf d).length rl2]
          (newData c cf d).length
          [(d, offsetLen.mk 0 (newData c cf d).length)] 2).NumContents = 1) ∧
    (∀ r : resolver, r.deduplicate = false → r.NumContents = r.AddressedTiles) := by
  constructor
  · intro cf c d id1 id2 rl1 rl2 hne
    have hne' : id2 ≠ (id1 + rl1) % 18446744073709551616 := hne
    refine ⟨?_, ?_, rfl⟩
    · unfold AddTileIsNew
      simp [newResolver, List.lookup]
    · unfold AddTileIsNew
      simp [List.lookup, hne']
  · intro r h
    simp [resolver.NumContents, h]

/-- C5 (witness).  Concrete instance: content byte 7 at the non-adjacent
ids 0 and 5, dedup on and compression off; plus the dedup-off reading of
`NumContents` at a concrete resolver. -/
theorem dedup_idempotence_w :
    (AddTileIsNew (fun x => x) (newResolver true false) 0 [7] 1 =
      some (resolver.mk true false [EntryV3.mk 0 0 1 1] 1
        [([7], offsetLen.mk 0 1)] 1, true, [7]) ∧
      AddTileIsNew (fun x => x)
        (resolver.mk true false [EntryV3.mk 0 0 1 1] 1 [([7], offsetLen.mk 0 1)] 1)
        5 [7] 1 =
        some (resolver.mk true false [EntryV3.mk 0 0 1 1, EntryV3.mk 5 0 1 1] 1
          [([7], offsetLen.mk 0 1)] 2, false, []) ∧
      (resolver.mk true false [EntryV3.mk 0 0 1 1, EntryV3.mk 5 0 1 1] 1
        [([7], offsetLen.mk 0 1)] 2).NumContents = 1) ∧
    (resolver.mk false false [] 0 [] 9).NumContents =
      (resolver.mk false false [] 0 [] 9).AddressedTiles :=
  ⟨dedup_idempotence.1 (fun x => x) false [7] 0 5 1 1 (by decide),
    dedup_idempotence.2 (resolver.mk false false [] 0 [] 9) (by decide)⟩

/-- Boolean success test for `Except`. -/
def exceptOk {α : Type} (x : Except String α) : Bool :=
  match x with
  | Except.ok _ => true
  | Except.error _ => false

/-- Embedding of the per-entry worker loop of `convertToDirectory`
(convert.go:758-787): for each index `i < RunLength`, derive the tile
path for spatial id `TileID + i` (`uint64` addition), skip the write when
the file already exists, and on a write error log the failure and
`continue` (skipping that tile's counter increment).  Returns the number
of counted tiles and the logged write-failure messages.  `ex` is the
`os.Stat` existence oracle, `wr` the `os.WriteFile` oracle, `idz` the
external `IDToZxy`. -/
def processRun (ex : Nat × Nat × Nat → Bool)
    (wr : Nat × Nat × Nat → List Nat → Except String Unit)
    (idz : Nat → Nat × Nat × Nat) (tileID : Nat) (data : List Nat) :
    Nat → Nat → Nat × List String
  | _, 0 => (0, [])
  | i, n + 1 =>
    let path := idz ((tileID + i) % 2 ^ 64)
    let rest := processRun ex wr idz tileID data (i + 1) n
    if ex path then (rest.1 + 1, rest.2)
    else
      match wr path data with
      | Except.ok _ => (rest.1 + 1, rest.2)
      | Except.error msg => (rest.1, ("Failed to write tile: " ++ msg) :: rest.2)

/-- Sequentialized embedding of the phase-B extraction pipeline of
`convertToDirectory` (convert.go:737-831): the reader reads each entry's
tile bytes (`rd`, a section of the archive; a failure aborts the whole
operation with `Failed to read tile data`), and the workers expand each
entry's run into individual files via `processRun`.  The bounded queue,
worker pool, cancellation context and progress bar are concurrency
plumbing not modelled here; entries are replayed in order, which realizes
the pipeline's error-handling policy exactly. -/
def extractTiles (rd : Nat → Nat → Except String (List Nat))
    (ex : Nat × Nat × Nat → Bool)
    (wr : Nat × Nat × Nat → List Nat → Except String Unit)
    (idz : Nat → Nat × Nat × Nat) :
    List EntryV3 → Except String (Nat × List String)
  | [] => Except.ok (0, [])
  | e :: rest =>
    match rd e.Offset e.Length with
    | Except.error msg => Except.error ("Failed to read tile data: " ++ msg)
    | Except.ok data =>
      let pr := processRun ex wr idz e.TileID data 0 e.RunLength
      match extractTiles rd ex wr idz rest with
      | Except.error msg => Except.error msg
      | Except.ok pr2 => Except.ok (pr.1 + pr2.1, pr.2 ++ pr2.2)

/-- C6 (counterexample).  The claim as stated is false: with a write
oracle that always fails (`disk full`), extracting two one-tile entries
still returns success — both failures are merely logged, the second tile
is still attempted, and no error is surfaced. -/
theorem extract_write_failure_continues_cex :
    extractTiles (fun _ _ => Except.ok [9]) (fun _ => false)
        (fun _ _ => Except.error "disk full") (fun i => (0, i, 0))
        [EntryV3.mk 0 0 1 1, EntryV3.mk 1 1 1 1] =
      Except.ok (0, ["Failed to write tile: disk full",
        "Failed to write tile: disk full"]) := by
  rfl

/-- C6 (amended).  In the extraction pipeline, a failure to read tile
data aborts the whole operation with an error, but a failure to write an
individual tile file is logged and that tile skipped: whenever every read
succeeds the operation returns success regardless of write failures,
continuing with the remaining tiles. -/
theorem extract_read_aborts_write_skips :
    (∀ (rd : Nat → Nat → Except String (List Nat)) (ex : Nat × Nat × Nat → Bool)
        (wr : Nat × Nat × Nat → List Nat → Except String Unit)
        (idz : Nat → Nat × Nat × Nat) (entries : List EntryV3),
      (∀ e ∈ entries, exceptOk (rd e.Offset e.Length) = true) →
      exceptOk (extractTiles rd ex wr idz entries) = true) ∧
    (∀ (rd : Nat → Nat → Except String (List Nat)) (ex : Nat × Nat × Nat → Bool)
        (wr : Nat × Nat × Nat → List Nat → Except String Unit)
        (idz : Nat → Nat × Nat × Nat) (e : EntryV3) (rest : List EntryV3) (msg : String),
      rd e.Offset e.Length = Except.error msg →
      extractTiles rd ex wr idz (e :: rest) =
        Except.error ("Failed to read tile data: " ++ msg)) := by
  constructor
  · intro rd ex wr idz entries hok
    induction entries with
    | nil => rfl
    | cons e rest ih =>
      have hhd := hok e (List.mem_cons_self e rest)
      rw [extractTiles]
      cases hread : rd e.Offset e.Length with
      | error msg => rw [hread] at hhd; exact absurd hhd (by simp [exceptOk])
      | ok data =>
        have htl : exceptOk (extractTiles rd ex wr idz rest) = true :=
          ih (fun x hx => hok x (List.mem_cons_of_mem e hx))
        cases hrec : extractTiles rd ex wr idz rest with
        | error msg => rw [hrec] at htl; exact absurd htl (by simp [exceptOk])
        | ok pr2 => simp [hread, hrec, exceptOk]
  · intro rd ex wr idz e rest msg hread
    rw [extractTiles, hread]

/-- C6 (witness).  Concrete instances: with all reads succeeding and all
writes failing, extraction of one entry succeeds; with a failing read,
extraction of one entry aborts with the read error. -/
theorem extract_read_aborts_write_skips_w :
    exceptOk (extractTiles (fun _ _ => Except.ok [9]) (fun _ => false)
      (fun _ _ => Except.error "disk full") (fun i => (0, i, 0))
      [EntryV3.mk 0 0 1 1]) = true ∧
    extractTiles (fun _ _ => Except.error "eof") (fun _ => false)
      (fun _ _ => Except.ok ()) (fun i => (0, i, 0)) [EntryV3.mk 0 0 1 1] =
      Except.error ("Failed to read tile data: " ++ "eof") :=
  ⟨extract_read_aborts_write_skips.1 (fun _ _ => Except.ok [9]) (fun _ => false)
      (fun _ _ => Except.error "disk full") (fun i => (0, i, 0))
      [EntryV3.mk 0 0 1 1] (by decide),
    extract_read_aborts_write_skips.2 (fun _ _ => Except.error "eof") (fun _ => false)
      (fun _ _ => Except.ok ()) (fun i => (0, i, 0)) (EntryV3.mk 0 0 1 1) [] "eof" rfl⟩

/-- Go `uint32` subtraction `a - b` with wrap-around (operand `b` reduced
mod `2 ^ 32` first; the result is reduced mod `2 ^ 32`). -/
def sub32 (a b : Nat) : Nat := (a + 2 ^ 32 - b % 2 ^ 32) % 2 ^ 32

/-- Embedding of `flippedY := (1 << z) - 1 - y` (convert.go:294), where
`1 << z` and the subtractions are Go `uint32` arithmetic. -/
def flippedY (z y : Nat) : Nat := sub32 (sub32 ((1 <<< z) % 2 ^ 32) 1) y

/-- Insert into a sorted duplicate-free list of ids (the behaviour of
`roaring64.Bitmap.Add` followed by in-order iteration). -/
def insertSorted (x : Nat) : List Nat → List Nat
  | [] => [x]
  | y :: ys =>
    if x < y then x :: y :: ys
    else if x = y then y :: ys
    else y :: insertSorted x ys

/-- Embedding of pass 1 of `convertMbtiles` (convert.go:273-298): scan all
stored `(zoom_level, tile_column, tile_row)` keys, convert each row via
`flippedY`, map to a spatial id with the external `ZxyToID`, and collect
the sorted set of unique ids. -/
def mbtilesTileset (zxyToID : Nat → Nat → Nat → Nat)
    (rows : List (Nat × Nat × Nat)) : List Nat :=
  rows.foldl (fun s row => insertSorted (zxyToID row.1 row.2.1 (flippedY row.1 row.2.2)) s) []

/-- Observable side effects of the conversion pipeline that the claims
talk about: writing newly-stored bytes to the tempfile (pass 2) and
creating the output archive file (`os.Create` in `finalize`). -/
inductive Effect where
  | writeTmp (bytes : List Nat)
  | createOutput
deriving Repr, DecidableEq

/-- Embedding of pass 2 of `convertMbtiles` (convert.go:304-348): visit
the tileset ids in ascending order, fetch the raw tile bytes (`getTile`,
the prepared SELECT; a missing row is an error), skip zero-length
payloads, feed the resolver, and write new bytes to the tempfile. -/
def pass2 (cf : List Nat → List Nat) (getTile : Nat → Option (List Nat)) :
    resolver → List Nat → Option (resolver × List Effect)
  | r, [] => some (r, [])
  | r, id :: rest =>
    match getTile id with
    | none => none
    | some data =>
      if 0 < data.length then
        match AddTileIsNew cf r id data 1 with
        | none => none
        | some res =>
          match pass2 cf getTile res.1 rest with
          | none => none
          | some pr =>
            some (pr.1, (if res.2.1 then [Effect.writeTmp res.2.2] else []) ++ pr.2)
      else pass2 cf getTile r rest

/-- Embedding of the control flow of `convertMbtiles` (convert.go:234-355)
around its two passes: pass 1 builds the tileset; if it is empty the
operation fails with `no tiles in MBTiles archive` before anything is
written and before `finalize` — which is what creates the output file —
runs; otherwise pass 2 runs and `finalize` creates the output.  The
effect list records what was performed. -/
def convertMbtilesModel (zxyToID : Nat → Nat → Nat → Nat)
    (getTile : Nat → Option (List Nat)) (cf : List Nat → List Nat)
    (dedup compress : Bool) (rows : List (Nat × Nat × Nat)) :
    List Effect × Except String resolver :=
  let ts := mbtilesTileset zxyToID rows
  if ts.length = 0 then ([], Except.error "no tiles in MBTiles archive")
  else
    match pass2 cf getTile (newResolver dedup compress) ts with
    | none => ([], Except.error "Missing row")
    | some pr => (pr.2 ++ [Effect.createOutput], Except.ok pr.1)

/-- C7.  A relational (MBTiles) source with zero tile rows makes the
conversion fail with the empty-input error `no tiles in MBTiles archive`,
with an empty effect trace: in particular the output archive file is
never created. -/
theorem mbtiles_empty_fails_before_output (zxyToID : Nat → Nat → Nat → Nat)
    (getTile : Nat → Option (List Nat)) (cf : List Nat → List Nat)
    (dedup compress : Bool) :
    convertMbtilesModel zxyToID getTile cf dedup compress [] =
      ([], Except.error "no tiles in MBTiles archive") := by
  rfl

/-- C8.  The relational-store adapter converts every in-range stored row
index to the archive row convention via `flippedRow = 2^zoom - 1 - row`
(first conjunct: the `uint32` computation agrees with the mathematical
formula for any valid zoom and row), and feeding the stored row
`(zoom 2, column 1, row 1)` yields exactly the spatial id computed from
`(zoom 2, x 1, y 2)` (second conjunct). -/
theorem flipped_row_convention :
    (∀ z y : Nat, z < 32 → y < 2 ^ z → flippedY z y = 2 ^ z - 1 - y) ∧
    (∀ zxyToID : Nat → Nat → Nat → Nat,
      mbtilesTileset zxyToID [(2, 1, 1)] = [zxyToID 2 1 2]) := by
  constructor
  · intro z y hz hy
    have hlt : (2 : Nat) ^ z < 2 ^ 32 := Nat.pow_lt_pow_right (by norm_num) hz
    unfold flippedY sub32
    rw [Nat.shiftLeft_eq, one_mul]
    generalize hA : (2 : Nat) ^ z = A at hy hlt ⊢
    omega
  · intro zxyToID
    rfl

/-- C8 (witness).  Concrete instances: `flippedY 2 1 = 2` and, with a
concrete spatial-id function, the stored row `(2,1,1)` produces the id
of `(2,1,2)`. -/
theorem flipped_row_convention_w :
    flippedY 2 1 = 2 ^ 2 - 1 - 1 ∧
    mbtilesTileset (fun z x y => 100 * z + 10 * x + y) [(2, 1, 1)] = [212] :=
  ⟨flipped_row_convention.1 2 1 (by decide) (by decide),
    by
      have h := flipped_row_convention.2 (fun z x y => 100 * z + 10 * x + y)
      simpa using h⟩

/-- Embedding of the fields of `HeaderV3` that `finalize` and
`setZoomCenterDefaults` touch (the section offsets/lengths are written by
external codecs and omitted). -/
structure HeaderV3 where
  MinZoom : Nat
  MaxZoom : Nat
  CenterZoom : Nat
  CenterLonE7 : Int
  CenterLatE7 : Int
  MinLonE7 : Int
  MinLatE7 : Int
  MaxLonE7 : Int
  MaxLatE7 : Int
  AddressedTilesCount : Nat
  TileEntriesCount : Nat
  TileContentsCount : Nat
deriving Repr, DecidableEq

/-- Embedding of `setZoomCenterDefaults` (convert.go:142-153).  The Go
code unconditionally reads `entries[0]` and `entries[len(entries)-1]`;
on an empty slice that access panics with an out-of-bounds error,
modelled as `none`.  `idz` is the external `IDToZxy`. -/
def setZoomCenterDefaults (idz : Nat → Nat × Nat × Nat) (header : HeaderV3)
    (entries : List EntryV3) : Option HeaderV3 :=
  match entries.head?, entries.getLast? with
  | some e0, some eLast =>
    let h1 := { header with
      MinZoom := (idz e0.TileID).1,
      MaxZoom := (idz eLast.TileID).1 }
    if h1.CenterZoom = 0 ∧ h1.CenterLonE7 = 0 ∧ h1.CenterLatE7 = 0 then
      some { h1 with
        CenterZoom := h1.MinZoom,
        CenterLonE7 := Int.tdiv (h1.MinLonE7 + h1.MaxLonE7) 2,
        CenterLatE7 := Int.tdiv (h1.MinLatE7 + h1.MaxLatE7) 2 }
    else some h1
  | _, _ => none

/-- Embedding of the header bookkeeping of `finalize` (convert.go:357-438)
up to the `setZoomCenterDefaults` call: the aggregate counts are set, and
then the first and last entries are indexed.  File output and the
external directory optimizer are I/O collaborators, irrelevant to the
out-of-bounds behaviour modelled here; `none` is the panic. -/
def finalizeModel (idz : Nat → Nat × Nat × Nat) (resolve : resolver)
    (header : HeaderV3) : Option HeaderV3 :=
  setZoomCenterDefaults idz
    { header with
      AddressedTilesCount := resolve.AddressedTiles,
      TileEntriesCount := resolve.Entries.length,
      TileContentsCount := resolve.NumContents }
    resolve.Entries

/-- Embedding of the tile loop of `convertPmtilesV2` (convert.go:199-223):
entries with `Length == 0` are skipped (`continue`) with no emptiness
check afterwards; the others are read back (`readTile`, abstracting the
seek-and-read) and fed to the resolver with `runLength` 1. -/
def v2Feed (cf : List Nat → List Nat) (readTile : Nat → Nat → List Nat) :
    resolver → List EntryV3 → Option resolver
  | r, [] => some r
  | r, e :: rest =>
    if e.Length = 0 then v2Feed cf readTile r rest
    else
      match AddTileIsNew cf r e.TileID (readTile e.Offset e.Length) 1 with
      | none => none
      | some res => v2Feed cf readTile res.1 rest

/-- C10.  `finalize` has an unstated non-emptiness precondition: replaying
a legacy v2 entry list in which every entry has length zero leaves the
resolver's entry list empty (every entry is skipped and no emptiness
check exists on this path), and `setZoomCenterDefaults` — hence
`finalize` — then hits an out-of-bounds access (`none`) instead of
returning an error. -/
theorem finalize_empty_entries_crash (cf : List Nat → List Nat)
    (readTile : Nat → Nat → List Nat) (dedup compress : Bool)
    (es : List EntryV3) (idz : Nat → Nat × Nat × Nat) (header : HeaderV3)
    (hzero : ∀ e ∈ es, e.Length = 0) :
    v2Feed cf readTile (newResolver dedup compress) es =
      some (newResolver dedup compress) ∧
    (newResolver dedup compress).Entries = [] ∧
    finalizeModel idz (newResolver dedup compress) header = none := by
  refine ⟨?_, rfl, rfl⟩
  induction es with
  | nil => rfl
  | cons e rest ih =>
    rw [v2Feed, if_pos (hzero e (List.mem_cons_self e rest))]
    exact ih (fun x hx => hzero x (List.mem_cons_of_mem e hx))

/-- C10 (witness).  Concrete instance: one v2 entry of length zero. -/
theorem finalize_empty_entries_crash_w :
    v2Feed (fun x => x) (fun _ _ => []) (newResolver false false)
        [EntryV3.mk 0 0 0 1] =
      some (newResolver false false) ∧
    (newResolver false false).Entries = [] ∧
    finalizeModel (fun _ => (0, 0, 0)) (newResolver false false)
      (HeaderV3.mk 0 0 0 0 0 0 0 0 0 0 0 0) = none :=
  finalize_empty_entries_crash (fun x => x) (fun _ _ => []) false false
    [EntryV3.mk 0 0 0 1] (fun _ => (0, 0, 0))
    (HeaderV3.mk 0 0 0 0 0 0 0 0 0 0 0 0) (by decide)
